import Mathlib

/-!
Verification development for the hybrid markdown editor's line model.

Lines are modelled as `List Char`; the document is a `List (List Char)`.
The pure helpers (`getMarkdownType`, `getListMeta`, `getRemovedPrefixLength`,
`mapDisplayOffsetToSourceIndex`, `getDisplayContentLength`) and the pure
cores of the edit handlers (`handleKeyDown`, `handlePaste`,
`deleteCurrentSelection`, the extension API line operations) are translated
directly from the source component.  JavaScript numbers are modelled as
`Nat` (ordered-list numbers in practice are small nonnegative integers).
-/

namespace HybridEditor

/-- Character class of the JavaScript regex `\s` (whitespace). -/
def isWsChar (c : Char) : Bool :=
  c == ' ' || c == '\t' || c == '\n' || c == '\r' || c == '\x0b' || c == '\x0c' ||
  c == '\u00A0' || c == '\u1680' ||
  (Nat.ble 0x2000 c.toNat && Nat.ble c.toNat 0x200a) ||
  c == '\u2028' || c == '\u2029' || c == '\u202F' || c == '\u205F' ||
  c == '\u3000' || c == '\uFEFF'

/-- Character class of the JavaScript regex `\d`. -/
def isDigitChar (c : Char) : Bool :=
  Nat.ble 48 c.toNat && Nat.ble c.toNat 57

/-- Length of the leading whitespace run of a line (the `(\s*)` capture). -/
def wsLen (l : List Char) : Nat :=
  (l.takeWhile isWsChar).length

/-- Match of `/^(\s*)([-*])\s\[[ xX]\]\s/`: returns the bullet character when
the line is a task item. -/
def taskInfo (l : List Char) : Option Char :=
  match l.dropWhile isWsChar with
  | b :: s :: c3 :: m :: c5 :: s2 :: _ =>
    if (b == '-' || b == '*') && isWsChar s && c3 == '[' &&
        (m == ' ' || m == 'x' || m == 'X') && c5 == ']' && isWsChar s2 then
      some b
    else none
  | _ => none

/-- Match of `/^(\s*)([-*])\s/`: returns the bullet character when the line is
an unordered list item. -/
def ulInfo (l : List Char) : Option Char :=
  match l.dropWhile isWsChar with
  | b :: s :: _ => if (b == '-' || b == '*') && isWsChar s then some b else none
  | _ => none

/-- Match of `/^(\s*)(\d+)\.\s/`: returns the digit run when the line is an
ordered list item. -/
def olInfo (l : List Char) : Option (List Char) :=
  match (l.dropWhile isWsChar).drop ((l.dropWhile isWsChar).takeWhile isDigitChar).length with
  | d :: s :: _ =>
    if !((l.dropWhile isWsChar).takeWhile isDigitChar).isEmpty && d == '.' &&
        isWsChar s then
      some ((l.dropWhile isWsChar).takeWhile isDigitChar)
    else none
  | _ => none

/-- Match of `/^(\s*)>\s/` as a Boolean. -/
def bqInfo (l : List Char) : Bool :=
  match l.dropWhile isWsChar with
  | c :: s :: _ => c == '>' && isWsChar s
  | _ => false

/-- Match of `/^#{k}\s/` for a fixed hash count `k`. -/
def headingAt (k : Nat) (l : List Char) : Bool :=
  (l.take k == List.replicate k '#') &&
    (match l.drop k with
     | c :: _ => isWsChar c
     | [] => false)

/-- Match of `/^#{1,4}\s/`: the matched length, when the line starts with one
to four hashes followed by whitespace. -/
def heading14Len (l : List Char) : Option Nat :=
  if Nat.ble 1 ((l.takeWhile (fun c => c == '#')).length) &&
      Nat.ble ((l.takeWhile (fun c => c == '#')).length) 4 then
    match l.drop ((l.takeWhile (fun c => c == '#')).length) with
    | c :: _ =>
      if isWsChar c then some ((l.takeWhile (fun c => c == '#')).length + 1) else none
    | [] => none
  else none

/-- Matched length of the task regex. -/
def taskLen (l : List Char) : Option Nat :=
  if (taskInfo l).isSome then some (wsLen l + 6) else none

/-- Matched length of the unordered-list regex. -/
def ulLen (l : List Char) : Option Nat :=
  if (ulInfo l).isSome then some (wsLen l + 2) else none

/-- Matched length of the ordered-list regex. -/
def olLen (l : List Char) : Option Nat :=
  match olInfo l with
  | some ds => some (wsLen l + ds.length + 2)
  | none => none

/-- Matched length of the blockquote regex. -/
def bqLen (l : List Char) : Option Nat :=
  if bqInfo l then some (wsLen l + 2) else none

/-- Semantic type of a line (source: the LineType union). -/
inductive LineType where
  | h1 | h2 | h3 | h4 | li | blockquote | p
  deriving DecidableEq, Repr

/-- Translation of the source's getMarkdownType: classify a line from its
markdown prefix, headings first, then task / unordered / ordered list,
then blockquote, else paragraph. -/
def getMarkdownType (l : List Char) : LineType :=
  if headingAt 1 l then .h1
  else if headingAt 2 l then .h2
  else if headingAt 3 l then .h3
  else if headingAt 4 l then .h4
  else if (taskInfo l).isSome then .li
  else if (ulInfo l).isSome then .li
  else if (olInfo l).isSome then .li
  else if bqInfo l then .blockquote
  else .p

/-- Marker kind of a line (source: the ListKind union, minus null). -/
inductive ListKind where
  | ul | ol | task | blockquote
  deriving DecidableEq, Repr

/-- Derived list metadata of a line (source: the ListMeta type). -/
structure ListMeta where
  kind : Option ListKind
  indent : List Char
  currentMarker : List Char
  nextMarker : List Char
  number : Option Nat
  deriving DecidableEq, Repr

/-- Test of `/\[[xX]\]/` against the whole line: does the line contain a
checked checkbox anywhere. -/
def hasCheckedBox : List Char → Bool
  | '[' :: 'x' :: ']' :: _ => true
  | '[' :: 'X' :: ']' :: _ => true
  | _ :: rest => hasCheckedBox rest
  | [] => false

/-- Numeric value of a digit run, as parseInt(ds, 10) on a matched `\d+`. -/
def digitsToNat (ds : List Char) : Nat :=
  ds.foldl (fun a c => a * 10 + (c.toNat - 48)) 0

/-- Translation of the source's getListMeta: task, then unordered, then
ordered, then blockquote; the checked state of a task's currentMarker is
taken from a whole-line search for a checked box, and an ordered marker
re-renders the parsed number (so leading zeros are dropped). -/
def getListMeta (l : List Char) : ListMeta :=
  let indent := l.takeWhile isWsChar
  match taskInfo l with
  | some b =>
    { kind := some .task, indent := indent,
      currentMarker :=
        indent ++ b :: ' ' :: '[' :: (if hasCheckedBox l then 'x' else ' ') :: ']' :: [' '],
      nextMarker := indent ++ b :: ' ' :: '[' :: ' ' :: ']' :: [' '],
      number := none }
  | none =>
  match ulInfo l with
  | some b =>
    { kind := some .ul, indent := indent,
      currentMarker := indent ++ b :: [' '],
      nextMarker := indent ++ b :: [' '],
      number := none }
  | none =>
  match olInfo l with
  | some ds =>
    let n := digitsToNat ds
    { kind := some .ol, indent := indent,
      currentMarker := indent ++ Nat.toDigits 10 n ++ ['.', ' '],
      nextMarker := indent ++ Nat.toDigits 10 (n + 1) ++ ['.', ' '],
      number := some n }
  | none =>
  if bqInfo l then
    { kind := some .blockquote, indent := indent,
      currentMarker := indent ++ ['>', ' '],
      nextMarker := indent ++ ['>', ' '],
      number := none }
  else
    { kind := none, indent := indent, currentMarker := [], nextMarker := [],
      number := none }

/-- Translation of the source's getRemovedPrefixLength: length of the first
matching structural prefix (heading, task, unordered, ordered, blockquote),
else 0. -/
def getRemovedPrefixLength (l : List Char) : Nat :=
  match heading14Len l with
  | some n => n
  | none =>
  match taskLen l with
  | some n => n
  | none =>
  match ulLen l with
  | some n => n
  | none =>
  match olLen l with
  | some n => n
  | none =>
  match bqLen l with
  | some n => n
  | none => 0

/-- Walk of the source's mapDisplayOffsetToSourceIndex loop over the content
after the stripped prefix: returns the content-relative index reaching
display offset d, or none when the walk falls off the end. -/
def mapIdx : List Char → Nat → Option Nat
  | [], _ => none
  | [_], d => if d = 0 then some 0 else none
  | c1 :: c2 :: rest, d =>
    if c1 = '*' ∧ c2 = '*' then (mapIdx rest d).map (· + 2)
    else if d = 0 then some 0
    else (mapIdx (c2 :: rest) (d - 1)).map (· + 1)

/-- Translation of the source's mapDisplayOffsetToSourceIndex. -/
def mapDisplayOffsetToSourceIndex (l : List Char) (displayOffset : Nat) : Nat :=
  match mapIdx (l.drop (getRemovedPrefixLength l)) displayOffset with
  | some i => getRemovedPrefixLength l + i
  | none => l.length

/-- Greedy removal of every `**` pair, as `.replace(/\*\*/g, "")`. -/
def removeStars : List Char → List Char
  | [] => []
  | [c] => [c]
  | c1 :: c2 :: rest =>
    if c1 = '*' ∧ c2 = '*' then removeStars rest
    else c1 :: removeStars (c2 :: rest)

/-- Number of display-visible characters of a content string (the walk of
mapDisplayOffsetToSourceIndex counts exactly these). -/
def visLen : List Char → Nat
  | [] => 0
  | [_] => 1
  | c1 :: c2 :: rest =>
    if c1 = '*' ∧ c2 = '*' then visLen rest
    else 1 + visLen (c2 :: rest)

/-- Number of display-visible characters among the first `b` characters of a
content string, under the same greedy `**` pairing. -/
def visBefore : List Char → Nat → Nat
  | [], _ => 0
  | [_], b => if b = 0 then 0 else 1
  | c1 :: c2 :: rest, b =>
    if c1 = '*' ∧ c2 = '*' then (if b ≤ 1 then 0 else visBefore rest (b - 2))
    else (if b = 0 then 0 else 1 + visBefore (c2 :: rest) (b - 1))

/-- Strip a matched prefix length from a line, as an anchored regex replace
with the empty string. -/
def stripMatch (m : List Char → Option Nat) (l : List Char) : List Char :=
  match m l with
  | some n => l.drop n
  | none => l

/-- Translation of the source's getDisplayContentLength: chained anchored
replaces (heading, task, unordered, ordered, blockquote), then global `**`
removal, then length. -/
def getDisplayContentLength (l : List Char) : Nat :=
  (removeStars
    (stripMatch bqLen
      (stripMatch olLen
        (stripMatch ulLen
          (stripMatch taskLen
            (stripMatch heading14Len l)))))).length

/-- Display offset of a source index: the count of display-visible characters
of the line strictly before that source index (prefix characters are not
display-visible). -/
def displayOffsetOfSource (l : List Char) (s : Nat) : Nat :=
  visBefore (l.drop (getRemovedPrefixLength l)) (s - getRemovedPrefixLength l)

/-- Editor options with their documented defaults. -/
structure Options where
  indentSize : Nat := 2
  continueListsOnEnter : Bool := true
  pasteSplitLines : Bool := true
  deriving DecidableEq, Repr

/-- Default options value. -/
def defaultOptions : Options := {}

/-- Result of an edit operation: the new document, the line index to
activate, and the pending caret (none when the operation left it alone). -/
structure EditorState where
  lines : List (List Char)
  active : Option Nat
  caret : Option Nat
  deriving DecidableEq, Repr

/-- Keys the built-in key handler reacts to. -/
inductive Key where
  | enter
  | backspace
  | tab (shift : Bool)
  | arrowUp
  | arrowDown
  | other
  deriving DecidableEq, Repr

/-- JavaScript `arr.splice(i, 0, x)`: insert at index i (appends when i is
past the end). -/
def insertAt (i : Nat) (x : List Char) (lines : List (List Char)) : List (List Char) :=
  lines.take i ++ x :: lines.drop i

/-- JavaScript `arr.splice(i, 0, ...xs)`. -/
def insertAllAt (i : Nat) (xs : List (List Char)) (lines : List (List Char)) :
    List (List Char) :=
  lines.take i ++ xs ++ lines.drop i

/-- JavaScript `arr.splice(i, 1)`: remove one element at index i. -/
def removeAt (i : Nat) (lines : List (List Char)) : List (List Char) :=
  lines.take i ++ lines.drop (i + 1)

/-- JavaScript `arr.splice(i, cnt, repl)`: replace cnt elements at i by one. -/
def spliceReplaceOne (i cnt : Nat) (repl : List Char) (lines : List (List Char)) :
    List (List Char) :=
  lines.take i ++ repl :: lines.drop (i + cnt)

/-- Anchored replace of a literal marker by the empty string:
`line.replace(new RegExp("^" + escaped(marker)), "")`. -/
def stripPrefixIfMatch (marker l : List Char) : List Char :=
  if marker.isPrefixOf l then l.drop marker.length else l

/-- Test `trim() === ""`: every character is whitespace. -/
def isBlank (l : List Char) : Bool :=
  l.all isWsChar

/-- Replace of `/^ {n}/` by the empty string: drop n leading literal spaces
when the line starts with that many. -/
def stripSpaces (n : Nat) (l : List Char) : List Char :=
  if n ≤ l.length ∧ (l.take n).all (fun c => c = ' ') then l.drop n else l

/-- Enter branch of the source's handleKeyDown: terminate a blank marker-only
list line to its indentation, else split the line, continuing the marker
when configured. -/
def enterOp (opts : Options) (lines : List (List Char)) (idx caret : Nat) :
    EditorState :=
  let line := lines.getD idx []
  let meta := getListMeta line
  let before := line.take caret
  let after := line.drop caret
  if meta.kind.isSome ∧ isBlank (stripPrefixIfMatch meta.currentMarker line) ∧
      meta.currentMarker.length ≤ caret then
    { lines := lines.set idx meta.indent, active := some idx,
      caret := some meta.indent.length }
  else if meta.kind.isSome ∧ opts.continueListsOnEnter then
    { lines := insertAt (idx + 1) (meta.nextMarker ++ after) (lines.set idx before),
      active := some (idx + 1), caret := some meta.nextMarker.length }
  else
    { lines := insertAt (idx + 1) after (lines.set idx before),
      active := some (idx + 1), caret := some 0 }

/-- Backspace branch of the source's handleKeyDown: merge with the previous
line at offset 0, else swallow a whole marker when the caret sits inside
it, else leave the state alone (default single-character behavior). -/
def backspaceOp (lines : List (List Char)) (idx caret : Nat) : EditorState :=
  if caret = 0 ∧ 0 < idx then
    let textToPrepend := lines.getD idx []
    let prevLen := (lines.getD (idx - 1) []).length
    { lines := removeAt idx
        (lines.set (idx - 1) ((lines.getD (idx - 1) []) ++ textToPrepend)),
      active := some (idx - 1), caret := some prevLen }
  else
    let line := lines.getD idx []
    let meta := getListMeta line
    if meta.kind.isSome ∧ caret ≤ meta.currentMarker.length ∧
        0 < meta.currentMarker.length then
      { lines := lines.set idx (line.drop meta.currentMarker.length),
        active := some idx, caret := some 0 }
    else
      { lines := lines, active := some idx, caret := none }

/-- Tab branch of the source's handleKeyDown: on a marker line, indent by
indentSize spaces (caret shifted right), or on Shift+Tab strip indentSize
leading spaces when the line starts with at least indentSize whitespace
characters, the caret always clamped-decremented; other lines are left
alone. -/
def tabOp (opts : Options) (lines : List (List Char)) (idx caret : Nat)
    (shift : Bool) : EditorState :=
  let line := lines.getD idx []
  let meta := getListMeta line
  if meta.kind.isSome then
    if shift then
      { lines := lines.set idx
          (if opts.indentSize ≤ wsLen line then stripSpaces opts.indentSize line
           else line),
        active := some idx, caret := some (caret - opts.indentSize) }
    else
      { lines := lines.set idx (List.replicate opts.indentSize ' ' ++ line),
        active := some idx, caret := some (caret + opts.indentSize) }
  else
    { lines := lines, active := some idx, caret := none }

/-- Translation of the source's handleKeyDown (extension hooks and the
selection guard aside). -/
def handleKeyDown (opts : Options) (lines : List (List Char)) (idx caret : Nat) :
    Key → EditorState
  | .enter => enterOp opts lines idx caret
  | .backspace => backspaceOp lines idx caret
  | .tab shift => tabOp opts lines idx caret shift
  | .arrowUp =>
    if 0 < idx then { lines := lines, active := some (idx - 1), caret := some caret }
    else { lines := lines, active := some idx, caret := none }
  | .arrowDown =>
    if idx < lines.length - 1 then
      { lines := lines, active := some (idx + 1), caret := some caret }
    else { lines := lines, active := some idx, caret := none }
  | .other => { lines := lines, active := some idx, caret := none }

/-- Replace of `/\r\n/g` by a line feed. -/
def crlfToLf : List Char → List Char
  | [] => []
  | [c] => [c]
  | c1 :: c2 :: rest =>
    if c1 = '\r' ∧ c2 = '\n' then '\n' :: crlfToLf rest
    else c1 :: crlfToLf (c2 :: rest)

/-- JavaScript `split("\n")`: always returns at least one segment. -/
def splitNl : List Char → List (List Char)
  | [] => [[]]
  | c :: rest =>
    let r := splitNl rest
    if c = '\n' then [] :: r
    else (c :: r.headD []) :: r.tail

/-- Translation of the source's handlePaste (extension hooks aside): with a
multi-line clipboard and no multi-line selection, split the pasted text
into the line at the caret. -/
def handlePaste (opts : Options) (lines : List (List Char)) (idx caret : Nat)
    (text : List Char) (selHasNewline : Bool) : EditorState :=
  if selHasNewline then { lines := lines, active := some idx, caret := none }
  else if ¬ opts.pasteSplitLines ∨ ¬ text.contains '\n' then
    { lines := lines, active := some idx, caret := none }
  else
    let line := lines.getD idx []
    let before := line.take caret
    let after := line.drop caret
    let pasted := splitNl (crlfToLf text)
    let head := before ++ pasted.headD []
    let tail := pasted.getLastD [] ++ after
    let next :=
      if 1 < pasted.length then
        insertAllAt (idx + 1) ((pasted.drop 1).dropLast ++ [tail]) (lines.set idx head)
      else lines.set idx head
    { lines := next, active := some (idx + pasted.length - 1),
      caret := some (pasted.getLastD []).length }

/-- Pure core of the source's deleteCurrentSelection, after the two selection
endpoints have been resolved to (line index, display offset) pairs; the
result collapses to one empty line when a deletion empties the document. -/
def deleteCurrentSelection (lines : List (List Char))
    (aIdx aDisp fIdx fDisp : Nat) : List (List Char) :=
  let startIdx := if fIdx < aIdx ∨ (aIdx = fIdx ∧ fDisp < aDisp) then fIdx else aIdx
  let startDisp := if fIdx < aIdx ∨ (aIdx = fIdx ∧ fDisp < aDisp) then fDisp else aDisp
  let endIdx := if fIdx < aIdx ∨ (aIdx = fIdx ∧ fDisp < aDisp) then aIdx else fIdx
  let endDisp := if fIdx < aIdx ∨ (aIdx = fIdx ∧ fDisp < aDisp) then aDisp else fDisp
  let startSrc := mapDisplayOffsetToSourceIndex (lines.getD startIdx []) startDisp
  let endSrc := mapDisplayOffsetToSourceIndex (lines.getD endIdx []) endDisp
  if startIdx = endIdx then
    let line := lines.getD startIdx []
    let fullDispLen := getDisplayContentLength line
    let next :=
      if startDisp = 0 ∧ endDisp = fullDispLen then removeAt startIdx lines
      else
        let s := if startDisp = 0 then 0 else startSrc
        let e := if endDisp = fullDispLen then line.length else endSrc
        lines.set startIdx (line.take s ++ line.drop e)
    if next = [] then [[]] else next
  else
    let startLine := lines.getD startIdx []
    let endLine := lines.getD endIdx []
    let endFullDispLen := getDisplayContentLength endLine
    let startCut := if startDisp = 0 then 0 else startSrc
    let endCut := if endDisp = endFullDispLen then endLine.length else endSrc
    let merged := startLine.take startCut ++ endLine.drop endCut
    let next := spliceReplaceOne startIdx (endIdx - startIdx + 1) merged lines
    if next = [] then [[]] else next

/-- Extension API setValue: re-split the joined document. -/
def apiSetValue (text : List Char) : List (List Char) :=
  splitNl text

/-- Extension API setLine. -/
def apiSetLine (i : Nat) (s : List Char) (lines : List (List Char)) :
    List (List Char) :=
  lines.set i s

/-- Extension API insertLine. -/
def apiInsertLine (i : Nat) (s : List Char) (lines : List (List Char)) :
    List (List Char) :=
  insertAt i s lines

/-- Extension API deleteLines: `splice(start, count)` with no emptiness
guard. -/
def apiDeleteLines (start count : Nat) (lines : List (List Char)) :
    List (List Char) :=
  lines.take start ++ lines.drop (start + count)

/-! ## Helper lemmas -/

theorem getListMeta_indent (l : List Char) :
    (getListMeta l).indent = l.takeWhile isWsChar := by
  unfold getListMeta
  cases htask : taskInfo l
  · cases hul : ulInfo l
    · cases hol : olInfo l
      · by_cases hbq : bqInfo l <;> simp [hbq]
      · simp
    · simp
  · simp

theorem taskInfo_spec {l : List Char} {b : Char} (h : taskInfo l = some b) :
    ∃ s m s2 t, l.dropWhile isWsChar = b :: s :: '[' :: m :: ']' :: s2 :: t ∧
      (b = '-' ∨ b = '*') ∧ isWsChar s = true ∧
      (m = ' ' ∨ m = 'x' ∨ m = 'X') ∧ isWsChar s2 = true := by
  unfold taskInfo at h
  split at h
  case h_2 => exact Option.noConfusion h
  case h_1 b' s c3 m c5 s2 t hd =>
    split at h
    case isFalse => exact Option.noConfusion h
    case isTrue hcond =>
      obtain rfl : b' = b := Option.some.inj h
      simp only [Bool.and_eq_true, Bool.or_eq_true, beq_iff_eq] at hcond
      obtain ⟨⟨⟨⟨⟨hb, hs⟩, hc3⟩, hm⟩, hc5⟩, hs2⟩ := hcond
      subst hc3
      subst hc5
      exact ⟨s, m, s2, t, hd, hb, hs, or_assoc.mp hm, hs2⟩

theorem ulInfo_spec {l : List Char} {b : Char} (h : ulInfo l = some b) :
    ∃ s t, l.dropWhile isWsChar = b :: s :: t ∧
      (b = '-' ∨ b = '*') ∧ isWsChar s = true := by
  unfold ulInfo at h
  split at h
  case h_2 => exact Option.noConfusion h
  case h_1 b' s t hd =>
    split at h
    case isFalse => exact Option.noConfusion h
    case isTrue hcond =>
      obtain rfl : b' = b := Option.some.inj h
      simp only [Bool.and_eq_true, Bool.or_eq_true, beq_iff_eq] at hcond
      exact ⟨s, t, hd, hcond.1, hcond.2⟩

theorem olInfo_spec {l : List Char} {ds : List Char} (h : olInfo l = some ds) :
    ∃ s t, l.dropWhile isWsChar = ds ++ '.' :: s :: t ∧ ds ≠ [] ∧
      ds.all isDigitChar = true ∧ isWsChar s = true := by
  unfold olInfo at h
  split at h
  case h_2 => exact Option.noConfusion h
  case h_1 d s t hr =>
    split at h
    case isFalse => exact Option.noConfusion h
    case isTrue hcond =>
      obtain rfl : (l.dropWhile isWsChar).takeWhile isDigitChar = ds :=
        Option.some.inj h
      simp only [Bool.and_eq_true, Bool.not_eq_true', beq_iff_eq] at hcond
      obtain ⟨⟨hne, hd⟩, hs⟩ := hcond
      subst hd
      obtain ⟨u, hu⟩ := List.takeWhile_prefix (l := l.dropWhile isWsChar) isDigitChar
      have hu2 : u = '.' :: s :: t := by
        have hcongr := congrArg
          (List.drop ((List.takeWhile isDigitChar (l.dropWhile isWsChar)).length)) hu
        rw [List.drop_left] at hcongr
        exact hcongr.trans hr
      refine ⟨s, t, ?_, ?_, ?_, hs⟩
      · calc l.dropWhile isWsChar
            = (l.dropWhile isWsChar).takeWhile isDigitChar ++ u := hu.symm
          _ = (l.dropWhile isWsChar).takeWhile isDigitChar ++ '.' :: s :: t := by
              rw [hu2]
      · intro hnil
        rw [hnil] at hne
        exact absurd hne (by decide)
      · exact List.all_eq_true.mpr fun a ha => List.mem_takeWhile_imp ha

theorem bqInfo_spec {l : List Char} (h : bqInfo l = true) :
    ∃ s t, l.dropWhile isWsChar = '>' :: s :: t ∧ isWsChar s = true := by
  unfold bqInfo at h
  split at h
  case h_2 => exact Bool.noConfusion h
  case h_1 c s t hd =>
    rw [Bool.and_eq_true, beq_iff_eq] at h
    exact ⟨s, t, by rw [hd, h.1], h.2⟩

theorem twoStepInduction {P : List Char → Prop} (h0 : P []) (h1 : ∀ c, P [c])
    (h2 : ∀ c1 c2 rest, P rest → P (c2 :: rest) → P (c1 :: c2 :: rest)) :
    ∀ l, P l := by
  have key : ∀ l, P l ∧ ∀ c, P (c :: l) := by
    intro l
    induction l with
    | nil => exact ⟨h0, h1⟩
    | cons a t ih => exact ⟨ih.2 a, fun c => h2 c a t ih.1 (ih.2 a)⟩
  exact fun l => (key l).1

theorem ws_ne_star {c : Char} (h : isWsChar c = true) : c ≠ '*' := by
  intro hc
  subst hc
  exact absurd h (by decide)

theorem mapIdx_some_visBefore :
    ∀ (l : List Char) (d i : Nat), mapIdx l d = some i → visBefore l i = d := by
  refine twoStepInduction ?_ ?_ ?_
  · intro d i h
    exact Option.noConfusion h
  · intro c d i h
    unfold mapIdx at h
    by_cases hd : d = 0
    · rw [if_pos hd] at h
      obtain rfl : (0 : Nat) = i := Option.some.inj h
      subst hd
      rfl
    · rw [if_neg hd] at h
      exact Option.noConfusion h
  · intro c1 c2 rest ih ih2 d i h
    unfold mapIdx at h
    by_cases hstar : c1 = '*' ∧ c2 = '*'
    · rw [if_pos hstar] at h
      cases hm : mapIdx rest d with
      | none => rw [hm] at h; exact Option.noConfusion h
      | some j =>
        rw [hm, Option.map_some'] at h
        obtain rfl : j + 2 = i := Option.some.inj h
        have hrec := ih d j hm
        unfold visBefore
        rw [if_pos hstar, if_neg (by omega : ¬ j + 2 ≤ 1)]
        simpa using hrec
    · rw [if_neg hstar] at h
      by_cases hd : d = 0
      · rw [if_pos hd] at h
        obtain rfl : (0 : Nat) = i := Option.some.inj h
        subst hd
        unfold visBefore
        rw [if_neg hstar, if_pos rfl]
      · rw [if_neg hd] at h
        cases hm : mapIdx (c2 :: rest) (d - 1) with
        | none => rw [hm] at h; exact Option.noConfusion h
        | some j =>
          rw [hm, Option.map_some'] at h
          obtain rfl : j + 1 = i := Option.some.inj h
          have hrec := ih2 (d - 1) j hm
          unfold visBefore
          rw [if_neg hstar, if_neg (by omega : ¬ j + 1 = 0)]
          rw [show j + 1 - 1 = j by omega, hrec]
          omega

theorem mapIdx_none_visLen :
    ∀ (l : List Char) (d : Nat), mapIdx l d = none → visLen l ≤ d := by
  refine twoStepInduction ?_ ?_ ?_
  · intro d _
    simp [visLen]
  · intro c d h
    unfold mapIdx at h
    by_cases hd : d = 0
    · rw [if_pos hd] at h
      exact Option.noConfusion h
    · unfold visLen
      omega
  · intro c1 c2 rest ih ih2 d h
    unfold mapIdx at h
    by_cases hstar : c1 = '*' ∧ c2 = '*'
    · rw [if_pos hstar] at h
      cases hm : mapIdx rest d with
      | some j => rw [hm, Option.map_some'] at h; exact Option.noConfusion h
      | none =>
        have := ih d hm
        unfold visLen
        rw [if_pos hstar]
        exact this
    · rw [if_neg hstar] at h
      by_cases hd : d = 0
      · rw [if_pos hd] at h
        exact Option.noConfusion h
      · rw [if_neg hd] at h
        cases hm : mapIdx (c2 :: rest) (d - 1) with
        | some j => rw [hm, Option.map_some'] at h; exact Option.noConfusion h
        | none =>
          have := ih2 (d - 1) hm
          unfold visLen
          rw [if_neg hstar]
          omega

theorem visBefore_length :
    ∀ l : List Char, visBefore l l.length = visLen l := by
  refine twoStepInduction ?_ ?_ ?_
  · rfl
  · intro c
    rfl
  · intro c1 c2 rest ih ih2
    by_cases hstar : c1 = '*' ∧ c2 = '*'
    · unfold visBefore visLen
      rw [if_pos hstar, if_pos hstar,
        if_neg (by simp : ¬ (c1 :: c2 :: rest).length ≤ 1)]
      rw [show (c1 :: c2 :: rest).length - 2 = rest.length by simp]
      exact ih
    · unfold visBefore visLen
      rw [if_neg hstar, if_neg hstar,
        if_neg (by simp : ¬ (c1 :: c2 :: rest).length = 0)]
      rw [show (c1 :: c2 :: rest).length - 1 = (c2 :: rest).length by simp]
      rw [ih2]

theorem visLen_eq_removeStars_length :
    ∀ l : List Char, visLen l = (removeStars l).length := by
  refine twoStepInduction ?_ ?_ ?_
  · rfl
  · intro c
    rfl
  · intro c1 c2 rest ih ih2
    by_cases hstar : c1 = '*' ∧ c2 = '*'
    · unfold visLen removeStars
      rw [if_pos hstar, if_pos hstar]
      exact ih
    · unfold visLen removeStars
      rw [if_neg hstar, if_neg hstar]
      simp [ih2]
      omega

theorem removeStars_cons_cons (c1 c2 : Char) (rest : List Char) :
    removeStars (c1 :: c2 :: rest) =
      if c1 = '*' ∧ c2 = '*' then removeStars rest
      else c1 :: removeStars (c2 :: rest) := rfl

theorem removeStars_append :
    ∀ p : List Char, ∀ t : List Char, p ≠ [] →
      (∀ c, p.getLast? = some c → c ≠ '*') →
      removeStars (p ++ t) = removeStars p ++ removeStars t := by
  refine twoStepInduction ?_ ?_ ?_
  · intro t hp _
    exact absurd rfl hp
  · intro c t _ hlast
    have hc : c ≠ '*' := hlast c rfl
    cases t with
    | nil =>
      rw [List.append_nil, show removeStars ([] : List Char) = [] from rfl,
        List.append_nil]
    | cons d t' =>
      show removeStars (c :: d :: t') = removeStars [c] ++ removeStars (d :: t')
      rw [removeStars_cons_cons, if_neg (by tauto : ¬ (c = '*' ∧ d = '*'))]
      rfl
  · intro c1 c2 p' ih ih2 t _ hlast
    have hlast' : (c1 :: c2 :: p').getLast? = (c2 :: p').getLast? :=
      List.getLast?_cons_cons
    by_cases hstar : c1 = '*' ∧ c2 = '*'
    · have hp' : p' ≠ [] := by
        intro hnil
        subst hnil
        exact hlast c2 (by rw [hlast']; rfl) hstar.2
      show removeStars (c1 :: c2 :: (p' ++ t)) =
        removeStars (c1 :: c2 :: p') ++ removeStars t
      rw [removeStars_cons_cons c1 c2 (p' ++ t), removeStars_cons_cons c1 c2 p',
        if_pos hstar, if_pos hstar]
      refine ih t hp' ?_
      intro c hc
      refine hlast c ?_
      rw [hlast']
      cases p' with
      | nil => exact absurd rfl hp'
      | cons a t2 =>
        rw [List.getLast?_cons_cons]
        exact hc
    · show removeStars (c1 :: c2 :: (p' ++ t)) =
        removeStars (c1 :: c2 :: p') ++ removeStars t
      rw [removeStars_cons_cons c1 c2 (p' ++ t), removeStars_cons_cons c1 c2 p',
        if_neg hstar, if_neg hstar]
      rw [show c2 :: (p' ++ t) = (c2 :: p') ++ t from rfl]
      rw [ih2 t (by simp) (by rw [hlast'] at hlast; exact hlast)]
      rfl

theorem removeStars_length_stripMatch (m : List Char → Option Nat)
    (hm : ∀ l n, m l = some n →
      ∃ p c t, l = p ++ c :: t ∧ n = p.length + 1 ∧ isWsChar c = true)
    (l : List Char) :
    (removeStars (stripMatch m l)).length ≤ (removeStars l).length := by
  unfold stripMatch
  cases hml : m l with
  | none => exact le_refl _
  | some n =>
    obtain ⟨p, c, t, hpt, hn, hc⟩ := hm l n hml
    subst hn
    subst hpt
    show (removeStars (List.drop (p.length + 1) (p ++ c :: t))).length ≤
      (removeStars (p ++ c :: t)).length
    rw [List.drop_append 1]
    rw [show List.drop 1 (c :: t) = t from rfl]
    rw [show p ++ c :: t = (p ++ [c]) ++ t by simp]
    rw [removeStars_append (p ++ [c]) t (by simp)
      (fun c' hc' => by
        rw [List.getLast?_concat] at hc'
        obtain rfl : c = c' := Option.some.inj hc'
        exact ws_ne_star hc)]
    simp [List.length_append]

theorem heading14Len_split (l : List Char) (n : Nat) (h : heading14Len l = some n) :
    ∃ p c t, l = p ++ c :: t ∧ n = p.length + 1 ∧ isWsChar c = true := by
  unfold heading14Len at h
  split at h
  case isFalse => exact Option.noConfusion h
  case isTrue hr =>
    split at h
    case h_2 => exact Option.noConfusion h
    case h_1 c t hdrop =>
      split at h
      case isFalse => exact Option.noConfusion h
      case isTrue hws =>
        obtain rfl : (l.takeWhile (fun c => c == '#')).length + 1 = n :=
          Option.some.inj h
        refine ⟨l.take ((l.takeWhile (fun c => c == '#')).length), c, t, ?_, ?_, hws⟩
        · conv_lhs => rw [← List.take_append_drop
            ((l.takeWhile (fun c => c == '#')).length) l]
          rw [hdrop]
        · congr 1
          rw [List.length_take, Nat.min_eq_left]
          exact (List.takeWhile_prefix _).length_le

theorem taskLen_split (l : List Char) (n : Nat) (h : taskLen l = some n) :
    ∃ p c t, l = p ++ c :: t ∧ n = p.length + 1 ∧ isWsChar c = true := by
  unfold taskLen at h
  split at h
  case isFalse => exact Option.noConfusion h
  case isTrue hsome =>
    obtain rfl : wsLen l + 6 = n := Option.some.inj h
    obtain ⟨b, hb⟩ := Option.isSome_iff_exists.mp hsome
    obtain ⟨s, m, s2, t, hd, _, _, _, hs2⟩ := taskInfo_spec hb
    refine ⟨l.takeWhile isWsChar ++ [b, s, '[', m, ']'], s2, t, ?_, ?_, hs2⟩
    · calc l = l.takeWhile isWsChar ++ (b :: s :: '[' :: m :: ']' :: s2 :: t) := by
            conv_lhs => rw [← List.takeWhile_append_dropWhile isWsChar l]
            rw [hd]
        _ = (l.takeWhile isWsChar ++ [b, s, '[', m, ']']) ++ s2 :: t := by simp
    · simp only [wsLen, List.length_append, List.length_cons, List.length_nil]

theorem ulLen_split (l : List Char) (n : Nat) (h : ulLen l = some n) :
    ∃ p c t, l = p ++ c :: t ∧ n = p.length + 1 ∧ isWsChar c = true := by
  unfold ulLen at h
  split at h
  case isFalse => exact Option.noConfusion h
  case isTrue hsome =>
    obtain rfl : wsLen l + 2 = n := Option.some.inj h
    obtain ⟨b, hb⟩ := Option.isSome_iff_exists.mp hsome
    obtain ⟨s, t, hd, _, hs⟩ := ulInfo_spec hb
    refine ⟨l.takeWhile isWsChar ++ [b], s, t, ?_, ?_, hs⟩
    · calc l = l.takeWhile isWsChar ++ (b :: s :: t) := by
            conv_lhs => rw [← List.takeWhile_append_dropWhile isWsChar l]
            rw [hd]
        _ = (l.takeWhile isWsChar ++ [b]) ++ s :: t := by simp
    · simp only [wsLen, List.length_append, List.length_cons, List.length_nil]

theorem olLen_split (l : List Char) (n : Nat) (h : olLen l = some n) :
    ∃ p c t, l = p ++ c :: t ∧ n = p.length + 1 ∧ isWsChar c = true := by
  unfold olLen at h
  split at h
  case h_2 => exact Option.noConfusion h
  case h_1 ds hds =>
    obtain rfl : wsLen l + ds.length + 2 = n := Option.some.inj h
    obtain ⟨s, t, hd, _, _, hs⟩ := olInfo_spec hds
    refine ⟨l.takeWhile isWsChar ++ ds ++ ['.'], s, t, ?_, ?_, hs⟩
    · calc l = l.takeWhile isWsChar ++ (ds ++ '.' :: s :: t) := by
            conv_lhs => rw [← List.takeWhile_append_dropWhile isWsChar l]
            rw [hd]
        _ = (l.takeWhile isWsChar ++ ds ++ ['.']) ++ s :: t := by simp
    · simp only [wsLen, List.length_append, List.length_cons, List.length_nil]

theorem bqLen_split (l : List Char) (n : Nat) (h : bqLen l = some n) :
    ∃ p c t, l = p ++ c :: t ∧ n = p.length + 1 ∧ isWsChar c = true := by
  unfold bqLen at h
  split at h
  case isFalse => exact Option.noConfusion h
  case isTrue hbq =>
    obtain rfl : wsLen l + 2 = n := Option.some.inj h
    obtain ⟨s, t, hd, hs⟩ := bqInfo_spec hbq
    refine ⟨l.takeWhile isWsChar ++ ['>'], s, t, ?_, ?_, hs⟩
    · calc l = l.takeWhile isWsChar ++ ('>' :: s :: t) := by
            conv_lhs => rw [← List.takeWhile_append_dropWhile isWsChar l]
            rw [hd]
        _ = (l.takeWhile isWsChar ++ ['>']) ++ s :: t := by simp
    · simp only [wsLen, List.length_append, List.length_cons, List.length_nil]

theorem dcl_le_visLen (l : List Char) :
    getDisplayContentLength l ≤ visLen (l.drop (getRemovedPrefixLength l)) := by
  rw [visLen_eq_removeStars_length]
  unfold getDisplayContentLength getRemovedPrefixLength
  cases hh : heading14Len l with
  | some n =>
    rw [show stripMatch heading14Len l = l.drop n by unfold stripMatch; rw [hh]]
    calc (removeStars (stripMatch bqLen (stripMatch olLen (stripMatch ulLen
            (stripMatch taskLen (l.drop n)))))).length
        ≤ (removeStars (stripMatch olLen (stripMatch ulLen
            (stripMatch taskLen (l.drop n))))).length :=
          removeStars_length_stripMatch bqLen bqLen_split _
      _ ≤ (removeStars (stripMatch ulLen (stripMatch taskLen (l.drop n)))).length :=
          removeStars_length_stripMatch olLen olLen_split _
      _ ≤ (removeStars (stripMatch taskLen (l.drop n))).length :=
          removeStars_length_stripMatch ulLen ulLen_split _
      _ ≤ (removeStars (l.drop n)).length :=
          removeStars_length_stripMatch taskLen taskLen_split _
  | none =>
    rw [show stripMatch heading14Len l = l by unfold stripMatch; rw [hh]]
    cases ht : taskLen l with
    | some n =>
      rw [show stripMatch taskLen l = l.drop n by unfold stripMatch; rw [ht]]
      calc (removeStars (stripMatch bqLen (stripMatch olLen (stripMatch ulLen
              (l.drop n))))).length
          ≤ (removeStars (stripMatch olLen (stripMatch ulLen (l.drop n)))).length :=
            removeStars_length_stripMatch bqLen bqLen_split _
        _ ≤ (removeStars (stripMatch ulLen (l.drop n))).length :=
            removeStars_length_stripMatch olLen olLen_split _
        _ ≤ (removeStars (l.drop n)).length :=
            removeStars_length_stripMatch ulLen ulLen_split _
    | none =>
      rw [show stripMatch taskLen l = l by unfold stripMatch; rw [ht]]
      cases hu : ulLen l with
      | some n =>
        rw [show stripMatch ulLen l = l.drop n by unfold stripMatch; rw [hu]]
        calc (removeStars (stripMatch bqLen (stripMatch olLen (l.drop n)))).length
            ≤ (removeStars (stripMatch olLen (l.drop n))).length :=
              removeStars_length_stripMatch bqLen bqLen_split _
          _ ≤ (removeStars (l.drop n)).length :=
              removeStars_length_stripMatch olLen olLen_split _
      | none =>
        rw [show stripMatch ulLen l = l by unfold stripMatch; rw [hu]]
        cases ho : olLen l with
        | some n =>
          rw [show stripMatch olLen l = l.drop n by unfold stripMatch; rw [ho]]
          exact removeStars_length_stripMatch bqLen bqLen_split _
        | none =>
          rw [show stripMatch olLen l = l by unfold stripMatch; rw [ho]]
          cases hb : bqLen l with
          | some n =>
            rw [show stripMatch bqLen l = l.drop n by unfold stripMatch; rw [hb]]
          | none =>
            rw [show stripMatch bqLen l = l by unfold stripMatch; rw [hb]]
            rw [List.drop_zero]

/-- C3: for every line and every display offset d at most the display
content length, mapping d to a source index with
mapDisplayOffsetToSourceIndex and then counting the display-visible
characters of the line before that index yields d again; the round trip is
stable on the whole range, so in particular at every offset not inside a
stripped marker or emphasis marker. -/
theorem c3_display_roundtrip (l : List Char) (d : Nat)
    (hd : d ≤ getDisplayContentLength l) :
    displayOffsetOfSource l (mapDisplayOffsetToSourceIndex l d) = d := by
  have hle : d ≤ visLen (l.drop (getRemovedPrefixLength l)) :=
    le_trans hd (dcl_le_visLen l)
  unfold displayOffsetOfSource mapDisplayOffsetToSourceIndex
  cases hm : mapIdx (l.drop (getRemovedPrefixLength l)) d with
  | some i =>
    show visBefore (l.drop (getRemovedPrefixLength l))
      (getRemovedPrefixLength l + i - getRemovedPrefixLength l) = d
    rw [show getRemovedPrefixLength l + i - getRemovedPrefixLength l = i by omega]
    exact mapIdx_some_visBefore _ d i hm
  | none =>
    have hge := mapIdx_none_visLen _ d hm
    show visBefore (l.drop (getRemovedPrefixLength l))
      (l.length - getRemovedPrefixLength l) = d
    rw [show l.length - getRemovedPrefixLength l =
      (l.drop (getRemovedPrefixLength l)).length from (List.length_drop _ _).symm]
    rw [visBefore_length]
    omega

/-- C3 witness: the round trip at display offset 1 of the bold list line. -/
theorem c3_witness :
    ((1 : Nat) ≤ getDisplayContentLength "- **a**b".toList) ∧
    displayOffsetOfSource "- **a**b".toList
      (mapDisplayOffsetToSourceIndex "- **a**b".toList 1) = 1 :=
  ⟨by decide, c3_display_roundtrip "- **a**b".toList 1 (by decide)⟩

theorem getD_append_length {α : Type} (xs : List α) (y : α) (ys : List α) (d : α) :
    (xs ++ y :: ys).getD xs.length d = y := by
  induction xs with
  | nil => rfl
  | cons a t ih => simpa using ih

theorem set_append_length {α : Type} (xs : List α) (y : α) (ys : List α) (v : α) :
    (xs ++ y :: ys).set xs.length v = xs ++ v :: ys := by
  induction xs with
  | nil => rfl
  | cons a t ih => simp [ih]

/-! ## Claim theorems -/

/-- C7: pressing Enter on a list/quote/task line whose content after
stripping its current marker is blank, with the source caret at or past that
marker, replaces the line's text with exactly its leading indentation, keeps
the same line active, and sets the pending caret to the length of the
remaining indentation. -/
theorem c7_enter_terminates_blank_item (opts : Options) (lines : List (List Char))
    (idx caret : Nat)
    (hk : (getListMeta (lines.getD idx [])).kind.isSome = true)
    (hb : isBlank (stripPrefixIfMatch (getListMeta (lines.getD idx [])).currentMarker
            (lines.getD idx [])) = true)
    (hc : (getListMeta (lines.getD idx [])).currentMarker.length ≤ caret) :
    handleKeyDown opts lines idx caret .enter =
      { lines := lines.set idx ((lines.getD idx []).takeWhile isWsChar),
        active := some idx,
        caret := some ((lines.getD idx []).takeWhile isWsChar).length } := by
  have hi := getListMeta_indent (lines.getD idx [])
  simp only [handleKeyDown, enterOp]
  rw [if_pos ⟨hk, hb, hc⟩, hi]

/-- C7 witness: Enter on the blank list item consisting of two spaces of
indentation and a dash marker. -/
theorem c7_witness :
    ((getListMeta ("  - ".toList)).kind.isSome = true ∧
      isBlank (stripPrefixIfMatch (getListMeta ("  - ".toList)).currentMarker
        ("  - ".toList)) = true ∧
      (getListMeta ("  - ".toList)).currentMarker.length ≤ 4) ∧
    handleKeyDown defaultOptions ["  - ".toList] 0 4 .enter =
      { lines := ["  - ".toList.takeWhile isWsChar], active := some 0,
        caret := some ("  - ".toList.takeWhile isWsChar).length } :=
  ⟨⟨by decide, by decide, by decide⟩,
    c7_enter_terminates_blank_item defaultOptions ["  - ".toList] 0 4
      (by decide) (by decide) (by decide)⟩

/-- C8: Backspace at source offset 0 on a line i with 0 < i appends line i's
full text to the end of line i−1, removes line i (the document length drops
by exactly one), activates line i−1, and sets the pending caret to line
i−1's pre-merge length. -/
theorem c8_backspace_start_merges (opts : Options) (lines : List (List Char))
    (idx : Nat) (h1 : 0 < idx) (h2 : idx < lines.length) :
    handleKeyDown opts lines idx 0 .backspace =
      { lines := lines.take (idx - 1) ++
          ((lines.getD (idx - 1) []) ++ lines.getD idx []) :: lines.drop (idx + 1),
        active := some (idx - 1), caret := some (lines.getD (idx - 1) []).length } ∧
    (handleKeyDown opts lines idx 0 .backspace).lines.length = lines.length - 1 := by
  have h0 : idx - 1 < lines.length := by omega
  have hmain : handleKeyDown opts lines idx 0 .backspace =
      { lines := lines.take (idx - 1) ++
          ((lines.getD (idx - 1) []) ++ lines.getD idx []) :: lines.drop (idx + 1),
        active := some (idx - 1), caret := some (lines.getD (idx - 1) []).length } := by
    simp only [handleKeyDown, backspaceOp]
    rw [if_pos (show True ∧ 0 < idx from ⟨trivial, h1⟩)]
    rw [List.set_eq_take_cons_drop _ h0]
    have hlenA : (lines.take (idx - 1)).length = idx - 1 := by
      rw [List.length_take]; omega
    have e2 : idx - 1 + 1 = idx := by omega
    rw [e2]
    unfold removeAt
    rw [List.take_append_eq_append_take, List.drop_append_eq_append_drop]
    rw [List.take_of_length_le (by omega : (lines.take (idx - 1)).length ≤ idx),
        List.drop_of_length_le (by omega : (lines.take (idx - 1)).length ≤ idx + 1)]
    rw [hlenA]
    rw [(by omega : idx - (idx - 1) = 1), (by omega : idx + 1 - (idx - 1) = 2)]
    simp [List.drop_drop]
  refine ⟨hmain, ?_⟩
  rw [hmain]
  simp only [List.length_append, List.length_cons, List.length_take,
    List.length_drop]
  omega

/-- C5 counterexample: on the ordered-list line 01. a, the computed
currentMarker is the normalized 1. (three characters), so Backspace inside
the marker leaves a line with a leading space instead of the source line
with its four-character marker prefix 01. removed. -/
theorem c5_counterexample :
    (getListMeta "01. a".toList).kind.isSome = true ∧
    (2 : Nat) ≤ (getListMeta "01. a".toList).currentMarker.length ∧
    (handleKeyDown defaultOptions ["01. a".toList] 0 2 .backspace).lines =
      [" a".toList] ∧
    "01. a".toList.drop (getRemovedPrefixLength "01. a".toList) = "a".toList ∧
    " a".toList ≠ "a".toList := by
  decide

/-- C5 amended: Backspace on a marker line with the source caret at most the
currentMarker length (marker nonempty, excluding the start-of-line merge
case) drops the first currentMarker-length characters from the line — which
is the source marker prefix except for ordered lists whose number has
leading zeros — keeps the same line active, and sets the pending caret
to 0. -/
theorem c5_backspace_in_marker_strips (opts : Options) (lines : List (List Char))
    (idx caret : Nat)
    (hk : (getListMeta (lines.getD idx [])).kind.isSome = true)
    (hle : caret ≤ (getListMeta (lines.getD idx [])).currentMarker.length)
    (hpos : 0 < (getListMeta (lines.getD idx [])).currentMarker.length)
    (hnot : ¬ (caret = 0 ∧ 0 < idx)) :
    handleKeyDown opts lines idx caret .backspace =
      { lines := lines.set idx
          ((lines.getD idx []).drop (getListMeta (lines.getD idx [])).currentMarker.length),
        active := some idx, caret := some 0 } := by
  simp only [handleKeyDown, backspaceOp]
  rw [if_neg hnot, if_pos ⟨hk, hle, hpos⟩]

/-- C5 witness: Backspace at caret 2 inside the marker of 01. a. -/
theorem c5_witness :
    ((getListMeta "01. a".toList).kind.isSome = true ∧
      2 ≤ (getListMeta "01. a".toList).currentMarker.length ∧
      0 < (getListMeta "01. a".toList).currentMarker.length ∧
      ¬ ((2 : Nat) = 0 ∧ (0 : Nat) < 0)) ∧
    handleKeyDown defaultOptions ["01. a".toList] 0 2 .backspace =
      { lines := [" a".toList], active := some 0, caret := some 0 } := by
  refine ⟨⟨by decide, by decide, by decide, by decide⟩, ?_⟩
  have h := c5_backspace_in_marker_strips defaultOptions ["01. a".toList] 0 2
    (by decide) (by decide) (by decide) (by decide)
  rw [h]
  decide

theorem shiftTabTextEq (l : List Char) :
    (if 2 ≤ wsLen l then stripSpaces 2 l else l) =
      (if l.take 2 = [' ', ' '] then l.drop 2 else l) := by
  match l with
  | [] => rfl
  | [c] =>
    have h1 : wsLen [c] ≤ 1 := by
      unfold wsLen
      cases hc : isWsChar c <;> simp [List.takeWhile, hc]
    rw [if_neg (by omega), if_neg (by simp)]
  | c1 :: c2 :: rest =>
    by_cases h12 : c1 = ' ' ∧ c2 = ' '
    · obtain ⟨rfl, rfl⟩ := h12
      have hws : 2 ≤ wsLen (' ' :: ' ' :: rest) := by
        unfold wsLen
        simp [List.takeWhile, (by decide : isWsChar ' ' = true)]
      rw [if_pos hws,
        if_pos (show List.take 2 (' ' :: ' ' :: rest) = [' ', ' '] from rfl)]
      unfold stripSpaces
      rw [if_pos ⟨by simp,
        by rw [show List.take 2 (' ' :: ' ' :: rest) = [' ', ' '] from rfl]; decide⟩]
    · have htake : ¬ (c1 :: c2 :: rest).take 2 = [' ', ' '] := by
        simp only [List.take]
        intro h
        exact h12 ⟨(List.cons.injEq _ _ _ _).mp h |>.1,
          ((List.cons.injEq _ _ _ _).mp ((List.cons.injEq _ _ _ _).mp h).2).1⟩
      rw [if_neg htake]
      split
      · unfold stripSpaces
        rw [if_neg]
        intro h
        have hall := h.2
        rw [show List.take 2 (c1 :: c2 :: rest) = [c1, c2] from rfl] at hall
        simp only [List.all_cons, List.all_nil, Bool.and_true, Bool.and_eq_true,
          decide_eq_true_eq] at hall
        exact h12 hall
      · rfl

/-- C6 counterexample: Shift+Tab on the unindented list line - a with caret 3
leaves the text unchanged but still moves the caret to 1, so the caret does
not shift by the same signed amount as the text change (which is zero). -/
theorem c6_counterexample :
    (getListMeta "- a".toList).kind.isSome = true ∧
    (handleKeyDown defaultOptions ["- a".toList] 0 3 (.tab true)).lines =
      ["- a".toList] ∧
    (handleKeyDown defaultOptions ["- a".toList] 0 3 (.tab true)).caret = some 1 ∧
    ¬ ((1 : Nat) = 3) := by
  decide

/-- C6 amended: with default options, Tab on a non-marker line is a no-op
(text and pending caret untouched); Tab on a marker line prepends exactly two
spaces and shifts the caret right by 2; Shift+Tab on a marker line removes
two leading spaces exactly when the line starts with two literal spaces, and
in every case (removal or not) sets the caret to the clamped difference
caret − 2. -/
theorem c6_tab_shift_tab (lines : List (List Char)) (idx caret : Nat) :
    ((getListMeta (lines.getD idx [])).kind = none →
      ∀ shift, handleKeyDown defaultOptions lines idx caret (.tab shift) =
        { lines := lines, active := some idx, caret := none }) ∧
    ((getListMeta (lines.getD idx [])).kind.isSome = true →
      handleKeyDown defaultOptions lines idx caret (.tab false) =
        { lines := lines.set idx (' ' :: ' ' :: lines.getD idx []),
          active := some idx, caret := some (caret + 2) }) ∧
    ((getListMeta (lines.getD idx [])).kind.isSome = true →
      handleKeyDown defaultOptions lines idx caret (.tab true) =
        { lines := lines.set idx
            (if (lines.getD idx []).take 2 = [' ', ' ']
             then (lines.getD idx []).drop 2 else lines.getD idx []),
          active := some idx, caret := some (caret - 2) }) := by
  refine ⟨?_, ?_, ?_⟩
  · intro hnone shift
    simp only [handleKeyDown, tabOp]
    rw [if_neg (show ¬ (getListMeta (lines.getD idx [])).kind.isSome = true by
      rw [hnone]; decide)]
  · intro hk
    simp only [handleKeyDown, tabOp]
    rw [if_pos hk]
    rfl
  · intro hk
    simp only [handleKeyDown, tabOp]
    rw [if_pos hk]
    have hst := shiftTabTextEq (lines.getD idx [])
    simp only [defaultOptions] at hst ⊢
    rw [if_pos trivial, hst]

/-- C6 witness: the three Tab behaviors at concrete lines (paragraph x,
list - a, indented list with two leading spaces). -/
theorem c6_witness :
    (handleKeyDown defaultOptions ["x".toList] 0 5 (.tab true) =
      { lines := ["x".toList], active := some 0, caret := none }) ∧
    (handleKeyDown defaultOptions ["- a".toList] 0 3 (.tab false) =
      { lines := ["  - a".toList], active := some 0, caret := some 5 }) ∧
    (handleKeyDown defaultOptions ["  - a".toList] 0 3 (.tab true) =
      { lines := ["- a".toList], active := some 0, caret := some 1 }) := by
  refine ⟨?_, ?_, ?_⟩
  · have h := (c6_tab_shift_tab ["x".toList] 0 5).1 (by decide) true
    rw [h]
  · have h := (c6_tab_shift_tab ["- a".toList] 0 3).2.1 (by decide)
    rw [h]
    decide
  · have h := (c6_tab_shift_tab ["  - a".toList] 0 3).2.2 (by decide)
    rw [h]
    decide

/-- C8 witness: merging the two-line document ab, cd at line 1. -/
theorem c8_witness :
    (0 < 1 ∧ 1 < (["ab".toList, "cd".toList] : List (List Char)).length) ∧
    handleKeyDown defaultOptions ["ab".toList, "cd".toList] 1 0 .backspace =
      { lines := ["abcd".toList], active := some 0, caret := some 2 } := by
  refine ⟨⟨by decide, by decide⟩, ?_⟩
  have h := (c8_backspace_start_merges defaultOptions ["ab".toList, "cd".toList] 1
    (by decide) (by decide)).1
  rw [h]
  decide

theorem insertAllAt_append_cons (xs : List (List Char)) (a : List Char)
    (ys zs : List (List Char)) :
    insertAllAt (xs.length + 1) ys (xs ++ a :: zs) = xs ++ a :: (ys ++ zs) := by
  unfold insertAllAt
  rw [List.take_append 1, List.drop_append 1]
  simp

/-- C9: with pasteSplitLines enabled and no multi-line selection, pasting the
clipboard text x, y, z (newline separated) at caret 1 in the line ab replaces
that line by the three lines ax, y, zb in place; the line holding zb becomes
active and the pending caret is 1, the length of the last pasted segment. -/
theorem c9_paste_multiline (pre post : List (List Char)) :
    handlePaste defaultOptions (pre ++ "ab".toList :: post) pre.length 1
        "x\ny\nz".toList false =
      { lines := pre ++ "ax".toList :: "y".toList :: "zb".toList :: post,
        active := some (pre.length + 2), caret := some 1 } := by
  simp only [handlePaste, getD_append_length]
  rw [if_neg (by decide), if_neg (by decide)]
  rw [show splitNl (crlfToLf "x\ny\nz".toList) =
    ["x".toList, "y".toList, "z".toList] from rfl]
  rw [show (List.take 1 "ab".toList ++
    (["x".toList, "y".toList, "z".toList] : List (List Char)).headD []) =
    "ax".toList from rfl]
  rw [show ((["x".toList, "y".toList, "z".toList] : List (List Char)).getLastD [] ++
    List.drop 1 "ab".toList) = "zb".toList from rfl]
  rw [set_append_length]
  rw [if_pos (by decide :
    (1 : Nat) < (["x".toList, "y".toList, "z".toList] : List (List Char)).length)]
  rw [show ((["x".toList, "y".toList, "z".toList].drop 1).dropLast ++ ["zb".toList]) =
    ["y".toList, "zb".toList] from rfl]
  rw [insertAllAt_append_cons]
  rfl

theorem splitNl_ne_nil (l : List Char) : splitNl l ≠ [] := by
  cases l with
  | nil => simp [splitNl]
  | cons c rest =>
    unfold splitNl
    by_cases hc : c = '\n' <;> simp [hc]

/-- C1 counterexample: the extension API deleteLines has no emptiness guard,
so deleting the only line yields the empty sequence, not one empty line. -/
theorem c1_counterexample : apiDeleteLines 0 1 [['a']] = [] := by
  decide

/-- C1 amended: every built-in edit operation (Enter split/termination,
Backspace merge and marker strip, Tab/Shift+Tab, multi-line paste, selection
deletion) and the extension API calls setValue, setLine and insertLine leave
the document non-empty; a selection deletion that removes the only line
collapses to exactly one empty line; the exception is the extension API
deleteLines, which can produce the empty sequence. -/
theorem c1_nonempty (opts : Options) (lines : List (List Char)) (h : lines ≠ [])
    (idx caret : Nat) (key : Key) (text : List Char) (selNl : Bool)
    (i : Nat) (s : List Char) (aIdx aDisp fIdx fDisp : Nat) :
    (handleKeyDown opts lines idx caret key).lines ≠ [] ∧
    (handlePaste opts lines idx caret text selNl).lines ≠ [] ∧
    deleteCurrentSelection lines aIdx aDisp fIdx fDisp ≠ [] ∧
    apiSetValue text ≠ [] ∧
    apiSetLine i s lines ≠ [] ∧
    apiInsertLine i s lines ≠ [] ∧
    (∀ l : List Char,
      deleteCurrentSelection [l] 0 0 0 (getDisplayContentLength l) = [[]]) := by
  have hlen : 0 < lines.length := List.length_pos.mpr h
  refine ⟨?_, ?_, ?_, splitNl_ne_nil text, ?_, ?_, ?_⟩
  · cases key with
    | enter =>
      simp only [handleKeyDown, enterOp]
      split_ifs <;>
        · apply List.ne_nil_of_length_pos
          simp [insertAt, List.length_append, List.length_take, List.length_drop,
            List.length_set]
          try omega
    | backspace =>
      simp only [handleKeyDown, backspaceOp]
      split_ifs with hcase hstrip
      · obtain ⟨-, hidx⟩ := hcase
        apply List.ne_nil_of_length_pos
        simp only [removeAt, List.length_append, List.length_take,
          List.length_drop, List.length_set]
        omega
      · apply List.ne_nil_of_length_pos
        simp only [List.length_set]
        exact hlen
      · exact h
    | tab shift =>
      simp only [handleKeyDown, tabOp]
      split_ifs <;>
        first
          | exact h
          | (apply List.ne_nil_of_length_pos; simp only [List.length_set]; exact hlen)
    | arrowUp =>
      simp only [handleKeyDown]
      split_ifs <;> exact h
    | arrowDown =>
      simp only [handleKeyDown]
      split_ifs <;> exact h
    | other => exact h
  · simp only [handlePaste]
    split_ifs <;>
      first
        | exact h
        | (apply List.ne_nil_of_length_pos;
           simp [insertAllAt, List.length_append, List.length_take,
             List.length_drop, List.length_set] <;> omega)
  · simp only [deleteCurrentSelection]
    split_ifs <;> first | decide | assumption
  · apply List.ne_nil_of_length_pos
    simp only [apiSetLine, List.length_set]
    exact hlen
  · apply List.ne_nil_of_length_pos
    simp [apiInsertLine, insertAt, List.length_append, List.length_take,
      List.length_drop]
  · intro l
    simp [deleteCurrentSelection, removeAt]

/-- C1 witness: the listed operations on the one-line document a. -/
theorem c1_witness :
    ((["a".toList] : List (List Char)) ≠ []) ∧
    ((handleKeyDown defaultOptions ["a".toList] 0 0 .enter).lines ≠ [] ∧
      (handlePaste defaultOptions ["a".toList] 0 0 "b\nc".toList false).lines ≠ [] ∧
      deleteCurrentSelection ["a".toList] 0 0 0 0 ≠ [] ∧
      apiSetValue "b\nc".toList ≠ [] ∧
      apiSetLine 0 "z".toList ["a".toList] ≠ [] ∧
      apiInsertLine 0 "z".toList ["a".toList] ≠ [] ∧
      (∀ l : List Char,
        deleteCurrentSelection [l] 0 0 0 (getDisplayContentLength l) = [[]])) :=
  ⟨by decide,
    c1_nonempty defaultOptions ["a".toList] (by decide) 0 0 .enter "b\nc".toList
      false 0 "z".toList 0 0 0 0⟩

theorem headingAt_head {k : Nat} {l : List Char} (hk : 1 ≤ k)
    (h : headingAt k l = true) : ∃ t, l = '#' :: t := by
  unfold headingAt at h
  rw [Bool.and_eq_true, beq_iff_eq] at h
  obtain ⟨htake, _⟩ := h
  cases l with
  | nil =>
    rw [List.take_nil] at htake
    cases k with
    | zero => omega
    | succ k' => rw [List.replicate_succ] at htake; exact List.noConfusion htake
  | cons c t =>
    cases k with
    | zero => omega
    | succ k' =>
      rw [List.take_succ_cons, List.replicate_succ] at htake
      exact ⟨t, by rw [(List.cons.injEq _ _ _ _).mp htake |>.1]⟩

theorem taskInfo_none_of_head {c : Char} {t : List Char} (hws : isWsChar c = false)
    (hd : c ≠ '-') (hs : c ≠ '*') : taskInfo (c :: t) = none := by
  unfold taskInfo
  rw [List.dropWhile_cons, hws]
  simp only [Bool.false_eq_true, if_false]
  rcases t with _ | ⟨c2, _ | ⟨c3, _ | ⟨c4, _ | ⟨c5, _ | ⟨c6, rest⟩⟩⟩⟩⟩
  · rfl
  · rfl
  · rfl
  · rfl
  · rfl
  · simp [hd, hs]

theorem ulInfo_none_of_head {c : Char} {t : List Char} (hws : isWsChar c = false)
    (hd : c ≠ '-') (hs : c ≠ '*') : ulInfo (c :: t) = none := by
  unfold ulInfo
  rw [List.dropWhile_cons, hws]
  simp only [Bool.false_eq_true, if_false]
  rcases t with _ | ⟨c2, rest⟩
  · rfl
  · simp [hd, hs]

theorem olInfo_none_of_head {c : Char} {t : List Char} (hws : isWsChar c = false)
    (hdig : isDigitChar c = false) : olInfo (c :: t) = none := by
  unfold olInfo
  rw [List.dropWhile_cons, hws]
  simp only [Bool.false_eq_true, if_false]
  rw [List.takeWhile_cons, hdig]
  simp only [Bool.false_eq_true, if_false, List.length_nil, List.drop_zero]
  rcases t with _ | ⟨c2, rest⟩
  · rfl
  · simp

theorem bqInfo_none_of_head {c : Char} {t : List Char} (hws : isWsChar c = false)
    (hgt : c ≠ '>') : bqInfo (c :: t) = false := by
  unfold bqInfo
  rw [List.dropWhile_cons, hws]
  simp only [Bool.false_eq_true, if_false]
  rcases t with _ | ⟨c2, rest⟩
  · rfl
  · simp [hgt]

/-- C10: the line classifier and the metadata extractor agree on every line:
the classifier answers li exactly when getListMeta reports a task, unordered
or ordered kind, and blockquote exactly when getListMeta reports the
blockquote kind. -/
theorem c10_type_meta_agree (l : List Char) :
    (getMarkdownType l = .li ↔
      ((getListMeta l).kind = some .task ∨ (getListMeta l).kind = some .ul ∨
        (getListMeta l).kind = some .ol)) ∧
    (getMarkdownType l = .blockquote ↔ (getListMeta l).kind = some .blockquote) := by
  by_cases hhead : ∃ t, l = '#' :: t
  · obtain ⟨t, rfl⟩ := hhead
    have htask := taskInfo_none_of_head (c := '#') (t := t) (by decide) (by decide)
      (by decide)
    have hul := ulInfo_none_of_head (c := '#') (t := t) (by decide) (by decide)
      (by decide)
    have hol := olInfo_none_of_head (c := '#') (t := t) (by decide) (by decide)
    have hbq := bqInfo_none_of_head (c := '#') (t := t) (by decide) (by decide)
    unfold getMarkdownType getListMeta
    rw [htask, hul, hol, hbq]
    simp only [Option.isSome_none, Bool.false_eq_true, if_false]
    constructor
    · constructor
      · intro hty
        exfalso
        revert hty
        split <;> simp_all
        split <;> simp_all
        split <;> simp_all
        split <;> simp_all
      · intro hk
        rcases hk with hk | hk | hk <;> exact Option.noConfusion hk
    · constructor
      · intro hty
        exfalso
        revert hty
        split <;> simp_all
        split <;> simp_all
        split <;> simp_all
        split <;> simp_all
      · intro hk
        exact Option.noConfusion hk
  · have h1 : headingAt 1 l = false := by
      cases hcl : headingAt 1 l
      · rfl
      · exact absurd (headingAt_head (by omega) hcl) hhead
    have h2 : headingAt 2 l = false := by
      cases hcl : headingAt 2 l
      · rfl
      · exact absurd (headingAt_head (by omega) hcl) hhead
    have h3 : headingAt 3 l = false := by
      cases hcl : headingAt 3 l
      · rfl
      · exact absurd (headingAt_head (by omega) hcl) hhead
    have h4 : headingAt 4 l = false := by
      cases hcl : headingAt 4 l
      · rfl
      · exact absurd (headingAt_head (by omega) hcl) hhead
    unfold getMarkdownType getListMeta
    rw [h1, h2, h3, h4]
    simp only [Bool.false_eq_true, if_false]
    cases htask : taskInfo l with
    | some b => simp [htask]
    | none =>
      cases hul : ulInfo l with
      | some b => simp [htask, hul]
      | none =>
        cases hol : olInfo l with
        | some ds => simp [htask, hul, hol]
        | none =>
          by_cases hbq : bqInfo l <;> simp [htask, hul, hol, hbq]

/-- C2 counterexample: pressing Enter at the end of the single line 1. a
creates 2. with pending caret 3, but pressing Enter again on that line with
the pending caret applied terminates the (blank) list item, yielding the two
lines 1. a and an empty line, not the three lines 1. a, 2. , 3. . -/
theorem c2_counterexample :
    (handleKeyDown defaultOptions ["1. a".toList] 0 4 .enter).lines =
      ["1. a".toList, "2. ".toList] ∧
    (handleKeyDown defaultOptions ["1. a".toList] 0 4 .enter).active = some 1 ∧
    (handleKeyDown defaultOptions ["1. a".toList] 0 4 .enter).caret = some 3 ∧
    (handleKeyDown defaultOptions
        (handleKeyDown defaultOptions ["1. a".toList] 0 4 .enter).lines 1 3
        .enter).lines = ["1. a".toList, []] ∧
    (["1. a".toList, ([] : List Char)] ≠
      ["1. a".toList, "2. ".toList, "3. ".toList]) := by
  decide

/-- C2 amended: for every ordered-list line, currentMarker embeds the parsed
number n and nextMarker embeds n + 1; pressing Enter at the end of the single
line 1. a yields 1. a, 2. with the new line active and pending caret 3, and
pressing Enter again there (with that caret) terminates the blank item,
leaving 1. a and an empty line. -/
theorem c2_ol_nextMarker_and_double_enter :
    (∀ l : List Char, (getListMeta l).kind = some .ol →
      ∃ n, (getListMeta l).number = some n ∧
        (getListMeta l).currentMarker =
          (getListMeta l).indent ++ Nat.toDigits 10 n ++ ['.', ' '] ∧
        (getListMeta l).nextMarker =
          (getListMeta l).indent ++ Nat.toDigits 10 (n + 1) ++ ['.', ' ']) ∧
    handleKeyDown defaultOptions ["1. a".toList] 0 4 .enter =
      { lines := ["1. a".toList, "2. ".toList], active := some 1, caret := some 3 } ∧
    handleKeyDown defaultOptions ["1. a".toList, "2. ".toList] 1 3 .enter =
      { lines := ["1. a".toList, []], active := some 1, caret := some 0 } := by
  refine ⟨?_, by decide, by decide⟩
  intro l hol
  unfold getListMeta at hol ⊢
  cases htask : taskInfo l with
  | some b => simp [htask] at hol
  | none =>
    cases hul : ulInfo l with
    | some b => simp [htask, hul] at hol
    | none =>
      cases holi : olInfo l with
      | none => by_cases hbq : bqInfo l <;> simp [htask, hul, holi, hbq] at hol
      | some ds => exact ⟨digitsToNat ds, rfl, rfl, rfl⟩

/-- C2 witness: the ordered-list line 1. a carries number 1, currentMarker
1. and nextMarker 2. . -/
theorem c2_witness :
    ((getListMeta "1. a".toList).kind = some ListKind.ol) ∧
    (∃ n, (getListMeta "1. a".toList).number = some n ∧
      (getListMeta "1. a".toList).currentMarker =
        (getListMeta "1. a".toList).indent ++ Nat.toDigits 10 n ++ ['.', ' '] ∧
      (getListMeta "1. a".toList).nextMarker =
        (getListMeta "1. a".toList).indent ++ Nat.toDigits 10 (n + 1) ++ ['.', ' ']) :=
  ⟨by decide, c2_ol_nextMarker_and_double_enter.1 "1. a".toList (by decide)⟩

/-- C4 counterexample: the task line - [ ] a [x] has an unchecked leading
checkbox, yet its computed currentMarker is the checked variant - [x]
(the checked test scans the whole line), so currentMarker does not reproduce
the exact source prefix. -/
theorem c4_counterexample :
    (getListMeta "- [ ] a [x]".toList).kind = some ListKind.task ∧
    "- [ ] a [x]".toList.take 6 = "- [ ] ".toList ∧
    (getListMeta "- [ ] a [x]".toList).currentMarker = "- [x] ".toList ∧
    (getListMeta "- [ ] a [x]".toList).currentMarker ≠ "- [ ] ".toList := by
  decide

/-- C4 amended: for every task line, currentMarker is the indent, the source
bullet, and a normalized checkbox (single spaces, lowercase x) whose checked
state is determined by whether the whole line contains a checked box [x] or
[X] anywhere — not by the leading checkbox itself — while nextMarker is
always the unchecked variant of that marker. -/
theorem c4_task_marker (l : List Char)
    (h : (getListMeta l).kind = some ListKind.task) :
    ∃ b, (b = '-' ∨ b = '*') ∧
      (getListMeta l).currentMarker =
        (getListMeta l).indent ++
          b :: ' ' :: '[' :: (if hasCheckedBox l then 'x' else ' ') :: ']' :: [' '] ∧
      (getListMeta l).nextMarker =
        (getListMeta l).indent ++ b :: ' ' :: '[' :: ' ' :: ']' :: [' '] := by
  unfold getListMeta at h ⊢
  cases htask : taskInfo l with
  | some b =>
    obtain ⟨s, m, s2, t, hd, hb, _, _, _⟩ := taskInfo_spec htask
    exact ⟨b, hb, rfl, rfl⟩
  | none =>
    cases hul : ulInfo l with
    | some b => simp [htask, hul] at h
    | none =>
      cases holi : olInfo l with
      | some ds => simp [htask, hul, holi] at h
      | none => by_cases hbq : bqInfo l <;> simp [htask, hul, holi, hbq] at h

/-- C4 witness: the checked task line - [X] a gets the normalized checked
currentMarker and the unchecked nextMarker. -/
theorem c4_witness :
    ((getListMeta "- [X] a".toList).kind = some ListKind.task) ∧
    (∃ b, (b = '-' ∨ b = '*') ∧
      (getListMeta "- [X] a".toList).currentMarker =
        (getListMeta "- [X] a".toList).indent ++
          b :: ' ' :: '[' ::
            (if hasCheckedBox "- [X] a".toList then 'x' else ' ') :: ']' :: [' '] ∧
      (getListMeta "- [X] a".toList).nextMarker =
        (getListMeta "- [X] a".toList).indent ++
          b :: ' ' :: '[' :: ' ' :: ']' :: [' ']) :=
  ⟨by decide, c4_task_marker "- [X] a".toList (by decide)⟩

end HybridEditor
